import Mathlib

/-!
Verification of the language-mirror tutoring backend (TypeScript sources:
`src/index.ts`, `src/services/gemini.ts`, `src/services/stt.ts`,
`src/services/translate.ts`, `src/services/eleven.ts`).

The development shallowly embeds the pure request-processing logic:
  * the Tutor Client's JSON-object extractor and field-level regex recovery
    (`gemini.ts`),
  * the transcript assembly of the Transcription Client (`stt.ts`),
  * the two turn orchestration endpoints, the history store and the clear
    endpoint (`index.ts`).
Remote services (decoder, recognizer, translator, generative model,
synthesizer) are modelled as result oracles; each invocation is recorded in
an explicit call log so that claims about which services run can be stated.
JavaScript strings are modelled as `List Char`; the JS `\s`/trim whitespace
class is modelled by the full ECMAScript WhiteSpace and LineTerminator set.
-/

namespace LangMirror

/-- Backtick character (Char code 96). -/
def backtick : Char := Char.ofNat 96

/-- Whitespace class used by JS `trim` and the regex class `\s`: the full
ECMAScript WhiteSpace plus LineTerminator set — tab, LF, VT, FF, CR, space,
NBSP, Ogham space mark (U+1680), the U+2000 to U+200A spaces, line and
paragraph separators (U+2028, U+2029), narrow no-break space (U+202F),
medium mathematical space (U+205F), ideographic space (U+3000) and the
byte-order mark (U+FEFF). -/
def isJsWs (c : Char) : Bool :=
  c = '\t' || c = '\n' || c = Char.ofNat 11 || c = Char.ofNat 12 || c = '\r' ||
  c = ' ' || c = Char.ofNat 160 || c = Char.ofNat 5760 ||
  (Char.ofNat 8192 ≤ c && c ≤ Char.ofNat 8202) ||
  c = Char.ofNat 8232 || c = Char.ofNat 8233 || c = Char.ofNat 8239 ||
  c = Char.ofNat 8287 || c = Char.ofNat 12288 || c = Char.ofNat 65279

/-- JS `String.prototype.trim`, left part. -/
def trimLeft (cs : List Char) : List Char := cs.dropWhile isJsWs

/-- JS `String.prototype.trim`, right part. -/
def trimRight (cs : List Char) : List Char := (cs.reverse.dropWhile isJsWs).reverse

/-- JS `String.prototype.trim`. -/
def jsTrim (cs : List Char) : List Char := trimRight (trimLeft cs)

namespace Spec

/-- Scanner state for the spec-level notion of a balanced JSON object:
brace depth, whether the scan is inside a quoted string, and whether the
previous in-string character was an unconsumed backslash escape. -/
structure St where
  depth : Int
  inString : Bool
  escape : Bool
deriving DecidableEq, Repr

/-- One step of the brace-depth scan described by the spec: "tracking brace
depth while respecting quoted-string boundaries and escape sequences". -/
def step (st : St) (c : Char) : St :=
  if st.inString then
    if st.escape then { st with escape := false }
    else if c = '\\' then { st with escape := true }
    else if c = '"' then { st with inString := false }
    else st
  else
    if c = '"' then { st with inString := true }
    else if c = '{' then { st with depth := st.depth + 1 }
    else if c = '}' then { st with depth := st.depth - 1 }
    else st

/-- Run the scanner over a character list. -/
def run (st : St) (cs : List Char) : St := cs.foldl step st

/-- Initial scanner state. -/
def st0 : St := ⟨0, false, false⟩

/-- Spec-level predicate: `cs` is a syntactically balanced top-level JSON
object substring: it starts with an opening brace, the depth returns to zero
exactly at its final character, and stays positive strictly inside. -/
def IsBalancedJsonObject (cs : List Char) : Prop :=
  cs.head? = some '{' ∧ (run st0 cs).depth = 0 ∧
    ∀ k ∈ List.range cs.length, 0 < k → 0 < (run st0 (cs.take k)).depth

instance (cs : List Char) : Decidable (IsBalancedJsonObject cs) := by
  unfold IsBalancedJsonObject
  infer_instance

/-- Number of (position-distinct) balanced JSON object substrings of `cs`. -/
def countBalancedSubstrings (cs : List Char) : Nat :=
  ((List.range (cs.length + 1)).map (fun i =>
    ((List.range (cs.length + 1 - i)).filter
      (fun len => decide (0 < len) &&
        decide (IsBalancedJsonObject ((cs.drop i).take len)))).length)).sum

end Spec

/-- Strip a leading markdown fence: JS `replace(/^(three backticks)json\s*\/i, "")`
from `extractFirstJSONObject` in `gemini.ts`. -/
def stripFenceHead (cs : List Char) : List Char :=
  match cs with
  | t1 :: t2 :: t3 :: c1 :: c2 :: c3 :: c4 :: rest =>
    if t1 = backtick ∧ t2 = backtick ∧ t3 = backtick ∧
       c1.toLower = 'j' ∧ c2.toLower = 's' ∧ c3.toLower = 'o' ∧ c4.toLower = 'n'
    then rest.dropWhile isJsWs
    else cs
  | _ => cs

/-- Strip a trailing markdown fence: JS `replace(/(three backticks)$\/i, "")`. -/
def stripFenceTail (cs : List Char) : List Char :=
  match cs.reverse with
  | t1 :: t2 :: t3 :: rest =>
    if t1 = backtick ∧ t2 = backtick ∧ t3 = backtick then rest.reverse else cs
  | _ => cs

/-- The preprocessing of `extractFirstJSONObject`:
`s.trim().replace(fenceHead, "").replace(fenceTail, "").trim()`. -/
def preprocessAnswer (cs : List Char) : List Char :=
  jsTrim (stripFenceTail (stripFenceHead (jsTrim cs)))

/-- The scanning loop of `extractFirstJSONObject`, started at the first
opening brace.  Arguments mirror the loop state of the source: the remaining
characters, current `depth`, `inString` and `escape` flags.  Returns the
consumed slice when a closing brace brings the depth to zero, `none` when
the input is exhausted first. -/
def extractCore : List Char → Int → Bool → Bool → Option (List Char)
  | [], _, _, _ => none
  | c :: rest, depth, inString, escape =>
    if inString then
      if escape then (extractCore rest depth true false).map (c :: ·)
      else if c = '\\' then (extractCore rest depth true true).map (c :: ·)
      else if c = '"' then (extractCore rest depth false escape).map (c :: ·)
      else (extractCore rest depth true escape).map (c :: ·)
    else
      if c = '"' then (extractCore rest depth true escape).map (c :: ·)
      else if c = '{' then (extractCore rest (depth + 1) false escape).map (c :: ·)
      else if c = '}' then
        if depth - 1 = 0 then some [c]
        else (extractCore rest (depth - 1) false escape).map (c :: ·)
      else (extractCore rest depth false escape).map (c :: ·)

/-- `extractFirstJSONObject` from `gemini.ts`, on character lists:
preprocess, locate the first opening brace (return the whole text when there
is none), then run the brace-matching scan; when the scan never closes,
return the best-effort suffix from the opening brace. -/
def extractFirstJSONObjectList (cs : List Char) : List Char :=
  let text := preprocessAnswer cs
  match text.dropWhile (fun c => !(c = '{')) with
  | [] => text
  | t =>
    match extractCore t 0 false false with
    | some obj => obj
    | none => t

/-- `extractFirstJSONObject` from `gemini.ts` on strings. -/
def extractFirstJSONObject (s : String) : String :=
  String.mk (extractFirstJSONObjectList s.data)

/-! ### Lemmas about the scanner and the extractor -/

@[simp] lemma run_nil (st : Spec.St) : Spec.run st [] = st := rfl

@[simp] lemma run_cons (st : Spec.St) (c : Char) (cs : List Char) :
    Spec.run st (c :: cs) = Spec.run (Spec.step st c) cs := rfl

lemma run_append (st : Spec.St) (xs ys : List Char) :
    Spec.run st (xs ++ ys) = Spec.run (Spec.run st xs) ys :=
  List.foldl_append Spec.step st xs ys

/-- When one scan step brings a positive depth down to zero, the scanner was
outside a string, the character was a closing brace, and the depth was one. -/
lemma step_closes {st : Spec.St} {c : Char} (hd : 0 < st.depth)
    (h0 : (Spec.step st c).depth = 0) :
    st.inString = false ∧ c = '}' ∧ st.depth = 1 := by
  by_cases hin : st.inString
  · exfalso
    have hdep : (Spec.step st c).depth = st.depth := by
      unfold Spec.step
      simp only [hin, if_true]
      by_cases hesc : st.escape <;> by_cases hbs : c = '\\' <;> by_cases hq : c = '"' <;>
        simp [hesc, hbs, hq]
    omega
  · by_cases hq : c = '"'
    · exfalso
      have hdep : (Spec.step st c).depth = st.depth := by
        unfold Spec.step; simp [hin, hq]
      omega
    · by_cases hob : c = '{'
      · exfalso
        have hdep : (Spec.step st c).depth = st.depth + 1 := by
          unfold Spec.step; simp [hin, hq, hob]
        omega
      · by_cases hcb : c = '}'
        · have hdep : (Spec.step st c).depth = st.depth - 1 := by
            unfold Spec.step; simp [hin, hq, hob, hcb]
          exact ⟨by simpa using hin, hcb, by omega⟩
        · exfalso
          have hdep : (Spec.step st c).depth = st.depth := by
            unfold Spec.step; simp [hin, hq, hob, hcb]
          omega

/-- One step of the extraction loop that does not hit the closing brace of
the top-level object behaves like the scanner step. -/
lemma extractCore_cons_step (c : Char) (cs : List Char) (st : Spec.St)
    (h : ¬ (st.inString = false ∧ c = '}' ∧ st.depth = 1)) :
    extractCore (c :: cs) st.depth st.inString st.escape =
      (extractCore cs (Spec.step st c).depth (Spec.step st c).inString
        (Spec.step st c).escape).map (c :: ·) := by
  by_cases hin : st.inString
  · by_cases hesc : st.escape
    · simp [extractCore, Spec.step, hin, hesc]
    · by_cases hbs : c = '\\'
      · simp [extractCore, Spec.step, hin, hesc, hbs]
      · by_cases hq : c = '"'
        · simp [extractCore, Spec.step, hin, hesc, hbs, hq]
        · simp [extractCore, Spec.step, hin, hesc, hbs, hq]
  · by_cases hq : c = '"'
    · simp [extractCore, Spec.step, hin, hq]
    · by_cases hob : c = '{'
      · simp [extractCore, Spec.step, hin, hq, hob]
      · by_cases hcb : c = '}'
        · have hd1 : ¬ st.depth = 1 := fun hd1 => h ⟨by simpa using hin, hcb, hd1⟩
          have hne : ¬ (st.depth - 1 = 0) := by omega
          simp [extractCore, Spec.step, hin, hq, hob, hcb, hne]
        · simp [extractCore, Spec.step, hin, hq, hob, hcb]

/-- The extraction loop, started inside a balanced region, consumes exactly
the characters up to and including the brace that closes the region. -/
lemma extractCore_closes :
    ∀ (cs : List Char) (st : Spec.St) (rest : List Char),
      cs ≠ [] →
      0 < st.depth →
      (∀ k ∈ List.range cs.length, 0 < k → 0 < (Spec.run st (cs.take k)).depth) →
      (Spec.run st cs).depth = 0 →
      extractCore (cs ++ rest) st.depth st.inString st.escape = some cs := by
  intro cs
  induction cs with
  | nil => intro st rest h _ _ _; exact absurd rfl h
  | cons c cs' ih =>
    intro st rest _ hd hpre hend
    rcases cs' with _ | ⟨c2, cs''⟩
    · obtain ⟨hin, hc, hd1⟩ := step_closes hd (by simpa using hend)
      subst hc
      simp [extractCore, hin, hd1]
    · have hs1 : 0 < (Spec.step st c).depth := by
        have h1 := hpre 1 (by simp) (by omega)
        simpa using h1
      have hpre' : ∀ k ∈ List.range (c2 :: cs'').length, 0 < k →
          0 < (Spec.run (Spec.step st c) ((c2 :: cs'').take k)).depth := by
        intro k hk hk0
        have hk' : k + 1 ∈ List.range (c :: c2 :: cs'').length := by
          simp only [List.mem_range, List.length_cons] at hk ⊢; omega
        have := hpre (k + 1) hk' (by omega)
        simpa using this
      have hend' : (Spec.run (Spec.step st c) (c2 :: cs'')).depth = 0 := by
        simpa using hend
      have hrec := ih (Spec.step st c) rest (by simp) hs1 hpre' hend'
      have hnc : ¬ (st.inString = false ∧ c = '}' ∧ st.depth = 1) := by
        rintro ⟨h1, h2, h3⟩
        have hdep : (Spec.step st c).depth = st.depth - 1 := by
          subst h2
          unfold Spec.step
          rw [if_neg (by simp [h1]), if_neg (by decide), if_neg (by decide), if_pos rfl]
        omega
      rw [List.cons_append, extractCore_cons_step c ((c2 :: cs'') ++ rest) st hnc, hrec]
      rfl

lemma dropWhile_append_head {p : Char → Bool} {c : Char} (h : p c = false)
    (pre rs : List Char) :
    (pre ++ c :: rs).dropWhile p = pre.dropWhile p ++ c :: rs := by
  induction pre with
  | nil => simp [List.dropWhile_cons, h]
  | cons a pr ih => by_cases ha : p a <;> simp [List.dropWhile_cons, ha, ih]

lemma not_mem_dropWhile {c : Char} {p : Char → Bool} {l : List Char} (h : c ∉ l) :
    c ∉ l.dropWhile p :=
  fun hm => h ((List.dropWhile_suffix p).sublist.subset hm)

/-- A balanced object starts with an opening brace. -/
lemma balanced_head {obj : List Char} (hbal : Spec.IsBalancedJsonObject obj) :
    ∃ body, obj = '{' :: body := by
  rcases obj with _ | ⟨c, body⟩
  · exact absurd hbal.1 (by simp)
  · have hc : c = '{' := by simpa using hbal.1
    exact ⟨body, by rw [hc]⟩

/-- A balanced object ends with a closing brace. -/
lemma balanced_getLast {obj : List Char} (hbal : Spec.IsBalancedJsonObject obj) :
    obj.getLast? = some '}' := by
  obtain ⟨body, rfl⟩ := balanced_head hbal
  rcases List.eq_nil_or_concat body with hb | ⟨Y, b, hb⟩
  · subst hb
    exact absurd hbal.2.1 (by decide)
  · rw [List.concat_eq_append] at hb
    subst hb
    have hd : 0 < (Spec.run Spec.st0 ('{' :: Y)).depth := by
      have hk : Y.length + 1 ∈ List.range ('{' :: (Y ++ [b])).length := by
        simp only [List.mem_range, List.length_cons, List.length_append]; omega
      have h2 := hbal.2.2 (Y.length + 1) hk (by omega)
      rwa [List.take_succ_cons, List.take_left] at h2
    have hend : (Spec.step (Spec.run Spec.st0 ('{' :: Y)) b).depth = 0 := by
      have h0 := hbal.2.1
      rw [show ('{' :: (Y ++ [b])) = ('{' :: Y) ++ [b] by simp] at h0
      rwa [run_append] at h0
    obtain ⟨-, hb2, -⟩ := step_closes hd hend
    subst hb2
    rw [show ('{' :: (Y ++ ['}'])) = ('{' :: Y) ++ ['}'] by simp]
    exact List.getLast?_concat _

/-- Outcomes of the fence-head strip: unchanged, or the matched fence is
removed and trailing whitespace dropped. -/
lemma stripFenceHead_cases (cs : List Char) :
    stripFenceHead cs = cs ∨
    ∃ c1 c2 c3 c4 tl, cs = backtick :: backtick :: backtick :: c1 :: c2 :: c3 :: c4 :: tl ∧
      c1.toLower = 'j' ∧ c2.toLower = 's' ∧ c3.toLower = 'o' ∧ c4.toLower = 'n' ∧
      stripFenceHead cs = tl.dropWhile isJsWs := by
  unfold stripFenceHead
  split
  · rename_i t1 t2 t3 c1 c2 c3 c4 tl
    split
    · rename_i h
      obtain ⟨h1, h2, h3, h4, h5, h6, h7⟩ := h
      subst h1; subst h2; subst h3
      exact Or.inr ⟨c1, c2, c3, c4, tl, rfl, h4, h5, h6, h7, rfl⟩
    · exact Or.inl rfl
  · exact Or.inl rfl

lemma stripFenceHead_decomp (pre rest : List Char) (hpre : '{' ∉ pre) :
    ∃ pre', stripFenceHead (pre ++ '{' :: rest) = pre' ++ '{' :: rest ∧ '{' ∉ pre' := by
  rcases stripFenceHead_cases (pre ++ '{' :: rest) with h |
    ⟨c1, c2, c3, c4, tl, heq, h1, h2, h3, h4, hres⟩
  · exact ⟨pre, h, hpre⟩
  · rcases pre with _ | ⟨p1, _ | ⟨p2, _ | ⟨p3, _ | ⟨p4, _ | ⟨p5, _ | ⟨p6, _ | ⟨p7, pr⟩⟩⟩⟩⟩⟩⟩ <;>
      simp only [List.cons_append, List.nil_append, List.cons.injEq] at heq
    · exact absurd heq.1 (by decide)
    · exact absurd heq.2.1 (by decide)
    · exact absurd heq.2.2.1 (by decide)
    · obtain ⟨-, -, -, hc, -⟩ := heq
      exact absurd (hc ▸ h1) (by decide)
    · obtain ⟨-, -, -, -, hc, -⟩ := heq
      exact absurd (hc ▸ h2) (by decide)
    · obtain ⟨-, -, -, -, -, hc, -⟩ := heq
      exact absurd (hc ▸ h3) (by decide)
    · obtain ⟨-, -, -, -, -, -, hc, -⟩ := heq
      exact absurd (hc ▸ h4) (by decide)
    · obtain ⟨-, -, -, -, -, -, -, htl⟩ := heq
      refine ⟨pr.dropWhile isJsWs, ?_, not_mem_dropWhile (fun hm => hpre (by simp [hm]))⟩
      rw [hres, ← htl, dropWhile_append_head (by decide)]

/-- Outcomes of the fence-tail strip. -/
lemma stripFenceTail_cases (cs : List Char) :
    stripFenceTail cs = cs ∨
    ∃ tl, cs.reverse = backtick :: backtick :: backtick :: tl ∧
      stripFenceTail cs = tl.reverse := by
  unfold stripFenceTail
  split
  · rename_i t1 t2 t3 tl heq
    split
    · rename_i h
      obtain ⟨h1, h2, h3⟩ := h
      subst h1; subst h2; subst h3
      exact Or.inr ⟨tl, heq, rfl⟩
    · exact Or.inl rfl
  · exact Or.inl rfl

/-- Reverse shape of a brace-delimited object. -/
lemma rev_shape {body : List Char} (hlast : ('{' :: body).getLast? = some '}') :
    ∃ objr, ('{' :: body).reverse = '}' :: objr ∧ objr.reverse ++ ['}'] = '{' :: body := by
  rcases hx : ('{' :: body).reverse with _ | ⟨r1, objr⟩
  · exact absurd (congrArg List.length hx) (by simp)
  · have hr1 : r1 = '}' := by
      have h1 : ('{' :: body).reverse.head? = some '}' := by
        rw [List.head?_reverse]; exact hlast
      rw [hx] at h1; simpa using h1
    subst hr1
    refine ⟨objr, rfl, ?_⟩
    rw [← List.reverse_cons, ← hx, List.reverse_reverse]

lemma not_mem_trimLeft {c : Char} {l : List Char} (h : c ∉ l) : c ∉ trimLeft l :=
  not_mem_dropWhile h

lemma stripFenceTail_decomp (A body post : List Char)
    (hlast : ('{' :: body).getLast? = some '}') :
    ∃ post', stripFenceTail (A ++ '{' :: (body ++ post)) = A ++ '{' :: (body ++ post') := by
  obtain ⟨objr, hobr, hback⟩ := rev_shape hlast
  have hcsrev : (A ++ '{' :: (body ++ post)).reverse =
      post.reverse ++ '}' :: (objr ++ A.reverse) := by
    rw [show '{' :: (body ++ post) = ('{' :: body) ++ post by simp]
    rw [List.reverse_append, List.reverse_append, hobr]
    simp [List.append_assoc]
  rcases stripFenceTail_cases (A ++ '{' :: (body ++ post)) with h | ⟨tl, heq, hres⟩
  · exact ⟨post, h⟩
  · rw [hcsrev] at heq
    rcases hpr : post.reverse with _ | ⟨q1, _ | ⟨q2, _ | ⟨q3, qr⟩⟩⟩ <;> rw [hpr] at heq <;>
      simp only [List.cons_append, List.nil_append, List.cons.injEq] at heq
    · exact absurd heq.1 (by decide)
    · exact absurd heq.2.1 (by decide)
    · exact absurd heq.2.2.1 (by decide)
    · obtain ⟨-, -, -, htl⟩ := heq
      refine ⟨qr.reverse, ?_⟩
      rw [hres, ← htl]
      simp only [List.reverse_append, List.reverse_cons, List.reverse_reverse]
      rw [show '{' :: (body ++ qr.reverse) = ('{' :: body) ++ qr.reverse by simp, ← hback]
      simp [List.append_assoc]

lemma trimLeft_decomp (pre rest : List Char) :
    trimLeft (pre ++ '{' :: rest) = trimLeft pre ++ '{' :: rest :=
  dropWhile_append_head (by decide) pre rest

lemma trimRight_decomp (A body post : List Char)
    (hlast : ('{' :: body).getLast? = some '}') :
    ∃ post', trimRight (A ++ '{' :: (body ++ post)) = A ++ '{' :: (body ++ post') := by
  obtain ⟨objr, hobr, hback⟩ := rev_shape hlast
  refine ⟨(post.reverse.dropWhile isJsWs).reverse, ?_⟩
  unfold trimRight
  have hcsrev : (A ++ '{' :: (body ++ post)).reverse =
      post.reverse ++ '}' :: (objr ++ A.reverse) := by
    rw [show '{' :: (body ++ post) = ('{' :: body) ++ post by simp]
    rw [List.reverse_append, List.reverse_append, hobr]
    simp [List.append_assoc]
  rw [hcsrev, dropWhile_append_head (by decide)]
  simp only [List.reverse_append, List.reverse_cons, List.reverse_reverse]
  rw [show '{' :: (body ++ (post.reverse.dropWhile isJsWs).reverse) =
      ('{' :: body) ++ (post.reverse.dropWhile isJsWs).reverse by simp, ← hback]
  simp [List.append_assoc]

/-- The whole preprocessing step preserves a brace-headed core whose
surrounding noise contains no opening brace on the left. -/
lemma preprocessAnswer_decomp (pre body post : List Char) (hpre : '{' ∉ pre)
    (hlast : ('{' :: body).getLast? = some '}') :
    ∃ pre' post',
      preprocessAnswer (pre ++ '{' :: (body ++ post)) = pre' ++ '{' :: (body ++ post') ∧
      '{' ∉ pre' := by
  unfold preprocessAnswer jsTrim
  rw [trimLeft_decomp]
  obtain ⟨post1, h1⟩ := trimRight_decomp (trimLeft pre) body post hlast
  rw [h1]
  obtain ⟨pre2, h2, hpre2⟩ :=
    stripFenceHead_decomp (trimLeft pre) (body ++ post1) (not_mem_trimLeft hpre)
  rw [h2]
  obtain ⟨post3, h3⟩ := stripFenceTail_decomp pre2 body post1 hlast
  rw [h3]
  rw [trimLeft_decomp]
  obtain ⟨post4, h4⟩ := trimRight_decomp (trimLeft pre2) body post3 hlast
  rw [h4]
  exact ⟨trimLeft pre2, post4, rfl, not_mem_trimLeft hpre2⟩

/-- The extraction loop started at the opening brace of a balanced object
returns exactly that object, whatever follows it. -/
lemma extractCore_balanced {body post' : List Char}
    (hbal : Spec.IsBalancedJsonObject ('{' :: body)) :
    extractCore ('{' :: (body ++ post')) 0 false false = some ('{' :: body) := by
  have hstep : Spec.step Spec.st0 '{' = ⟨1, false, false⟩ := by decide
  have hbody : body ≠ [] := by
    intro h
    subst h
    exact absurd hbal.2.1 (by decide)
  have hpre'' : ∀ k ∈ List.range body.length, 0 < k →
      0 < (Spec.run ⟨1, false, false⟩ (body.take k)).depth := by
    intro k hk hk0
    have hk1 : k + 1 ∈ List.range ('{' :: body).length := by
      simp only [List.mem_range, List.length_cons] at hk ⊢; omega
    have h2 := hbal.2.2 (k + 1) hk1 (by omega)
    rw [List.take_succ_cons, run_cons, hstep] at h2
    exact h2
  have hend'' : (Spec.run ⟨1, false, false⟩ body).depth = 0 := by
    have h0 := hbal.2.1
    rwa [run_cons, hstep] at h0
  have hclose := extractCore_closes body ⟨1, false, false⟩ post' hbody (by decide) hpre'' hend''
  have hnc : ¬ (Spec.st0.inString = false ∧ '{' = '}' ∧ Spec.st0.depth = 1) := by decide
  have h1 := extractCore_cons_step '{' (body ++ post') Spec.st0 hnc
  rw [hstep] at h1
  simp only at h1
  rw [show (Spec.st0.depth : Int) = 0 from rfl, show Spec.st0.inString = false from rfl,
    show Spec.st0.escape = false from rfl] at h1
  rw [h1, hclose]
  rfl

/-- `extractFirstJSONObject` returns a balanced object embedded in noise,
provided the noise before the object contains no opening brace. -/
lemma extractFirstJSONObjectList_of_balanced (pre obj post : List Char)
    (hbal : Spec.IsBalancedJsonObject obj) (hpre : '{' ∉ pre) :
    extractFirstJSONObjectList (pre ++ obj ++ post) = obj := by
  obtain ⟨body, rfl⟩ := balanced_head hbal
  have hlast := balanced_getLast hbal
  obtain ⟨pre', post', hpp, hpre'⟩ := preprocessAnswer_decomp pre body post hpre hlast
  have heq : extractFirstJSONObjectList (pre ++ '{' :: body ++ post) =
      match (preprocessAnswer (pre ++ '{' :: body ++ post)).dropWhile (fun c => !(c = '{')) with
      | [] => preprocessAnswer (pre ++ '{' :: body ++ post)
      | t => match extractCore t 0 false false with
             | some obj => obj
             | none => t := rfl
  rw [heq]
  rw [show pre ++ '{' :: body ++ post = pre ++ '{' :: (body ++ post) by simp]
  rw [hpp]
  have hdw : List.dropWhile (fun c => !(c = '{')) (pre' ++ '{' :: (body ++ post')) =
      '{' :: (body ++ post') := by
    rw [List.dropWhile_append_of_pos]
    · exact List.dropWhile_cons_of_neg (by simp)
    · intro a ha
      simp only [Bool.not_eq_eq_eq_not, Bool.not_true, decide_eq_false_iff_not]
      exact fun h => hpre' (h ▸ ha)
  rw [hdw]
  have hfin : (match extractCore ('{' :: (body ++ post')) 0 false false with
      | some obj => obj
      | none => '{' :: (body ++ post')) = '{' :: body := by
    rw [extractCore_balanced hbal]
  exact hfin

/-! ### Field-level regex recovery (`pick` in `gemini.ts`)

The recovery regex is `"key"\s*:\s*"(lazy any)*"\s*(,|close-brace)`.
It is modelled as a specialised matcher: scan for the leftmost position
where the quoted key literal is followed by optional whitespace, a colon,
optional whitespace and an opening quote; from there the lazy group takes
the shortest extent whose closing quote is followed by optional whitespace
and a comma or closing brace. -/

/-- Continuation test after a candidate closing quote:
optional whitespace then a comma or a closing brace. -/
def contOk (cs : List Char) : Bool :=
  match cs.dropWhile isJsWs with
  | c :: _ => c = ',' || c = '}'
  | [] => false

/-- Lazy capture group: shortest prefix whose following quote has
a valid continuation. -/
def lazyGroup : List Char → Option (List Char)
  | [] => none
  | c :: rest =>
    if c = '"' && contOk rest then some []
    else (lazyGroup rest).map (c :: ·)

/-- The quoted field-name literal that anchors the recovery regex. -/
def fieldPat (key : List Char) : List Char := '"' :: (key ++ ['"'])

/-- Attempt a match of the whole pattern at the current position. -/
def tryAt (key : List Char) (cs : List Char) : Option (List Char) :=
  if (fieldPat key).isPrefixOf cs then
    match (cs.drop (fieldPat key).length).dropWhile isJsWs with
    | c1 :: r2 =>
      if c1 = ':' then
        match r2.dropWhile isJsWs with
        | c2 :: r3 => if c2 = '"' then lazyGroup r3 else none
        | [] => none
      else none
    | [] => none
  else none

/-- Leftmost match of the field pattern: the captured group of the first
position at which `tryAt` succeeds. -/
def pickMatch (key : List Char) : List Char → Option (List Char)
  | [] => none
  | c :: rest =>
    match tryAt key (c :: rest) with
    | some g => some g
    | none => pickMatch key rest

/-- JS `replace(/\\"/g, quote)` : left-to-right rewrite of backslash-quote
pairs to quotes. -/
def replaceEscQuote : List Char → List Char
  | [] => []
  | [c] => [c]
  | c1 :: c2 :: rest =>
    if c1 = '\\' && c2 = '"' then '"' :: replaceEscQuote rest
    else c1 :: replaceEscQuote (c2 :: rest)

/-- JS `replace(/\\n/g, newline)` : left-to-right rewrite of backslash-n
pairs to newlines. -/
def replaceEscN : List Char → List Char
  | [] => []
  | [c] => [c]
  | c1 :: c2 :: rest =>
    if c1 = '\\' && c2 = 'n' then '\n' :: replaceEscN rest
    else c1 :: replaceEscN (c2 :: rest)

/-- The decode applied by `pick` to a captured group, in source order:
first escaped quotes, then escaped newlines. -/
def decodeEscapes (cs : List Char) : List Char := replaceEscN (replaceEscQuote cs)

/-- `pick` from the recovery stage of `geminiTutor`: extract the field's
string value from the raw candidate text, decoding escaped quotes and
newlines; the empty string when the pattern does not match. -/
def pick (key : String) (jsonStr : String) : String :=
  match pickMatch key.data jsonStr.data with
  | some g => String.mk (decodeEscapes g)
  | none => ""

/-- Tutor Output record (`TutorOut` in `gemini.ts`); the follow-up question
field is optional in the TypeScript type. -/
structure TutorOut where
  corrected_user : String
  tips_native : String
  assistant_reply : String
  follow_up_question : Option String
deriving DecidableEq, Repr

/-- The recovery stage of `geminiTutor` (the catch block of step 3):
recover the four fields by regex, fail only when all three primary fields
come back empty, attaching a truncated raw snippet to the error. -/
def recoverFields (jsonStr raw parseErrMsg : String) : Except String TutorOut :=
  let recovered : TutorOut :=
    { corrected_user := pick "corrected_user" jsonStr
      tips_native := pick "tips_native" jsonStr
      assistant_reply := pick "assistant_reply" jsonStr
      follow_up_question := some (pick "follow_up_question" jsonStr) }
  if recovered.corrected_user = "" ∧ recovered.tips_native = "" ∧
     recovered.assistant_reply = "" then
    Except.error ("JSON parse failed: " ++ parseErrMsg ++ ". Raw snippet: " ++
      String.mk ((if jsonStr = "" then raw else jsonStr).data.take 800))
  else
    Except.ok recovered

/-- Spec-side description of a well-formed JSON string body restricted to
the escapes the claim mentions: plain characters (no quote, no backslash),
escaped quotes and escaped newlines; the second list is the decoded value. -/
inductive ValidBody : List Char → List Char → Prop
  | nil : ValidBody [] []
  | plain {c : Char} {b d : List Char} :
      c ≠ '"' → c ≠ '\\' → ValidBody b d → ValidBody (c :: b) (c :: d)
  | escQuote {b d : List Char} : ValidBody b d → ValidBody ('\\' :: '"' :: b) ('"' :: d)
  | escNewline {b d : List Char} : ValidBody b d → ValidBody ('\\' :: 'n' :: b) ('\n' :: d)

lemma replaceEscQuote_cons_ne {c : Char} (h : ¬ c = '\\') (rest : List Char) :
    replaceEscQuote (c :: rest) = c :: replaceEscQuote rest := by
  rcases rest with _ | ⟨c2, rs⟩
  · rfl
  · simp [replaceEscQuote, h]

lemma replaceEscN_cons_ne {c : Char} (h : ¬ c = '\\') (rest : List Char) :
    replaceEscN (c :: rest) = c :: replaceEscN rest := by
  rcases rest with _ | ⟨c2, rs⟩
  · rfl
  · simp [replaceEscN, h]

/-- The two-pass replace of `pick` decodes a restricted valid body. -/
lemma decodeEscapes_validBody {b d : List Char} (h : ValidBody b d) :
    decodeEscapes b = d := by
  unfold decodeEscapes
  induction h with
  | nil => rfl
  | plain hq hb hv ih =>
    rename_i c b d
    rw [replaceEscQuote_cons_ne hb, replaceEscN_cons_ne hb, ih]
  | escQuote hv ih =>
    rename_i b d
    have h1 : replaceEscQuote ('\\' :: '"' :: b) = '"' :: replaceEscQuote b := by
      simp [replaceEscQuote]
    rw [h1, replaceEscN_cons_ne (by decide), ih]
  | escNewline hv ih =>
    rename_i b d
    have h1 : replaceEscQuote ('\\' :: 'n' :: b) = '\\' :: 'n' :: replaceEscQuote b := by
      rw [show replaceEscQuote ('\\' :: 'n' :: b) =
          '\\' :: replaceEscQuote ('n' :: b) by simp [replaceEscQuote]]
      rw [replaceEscQuote_cons_ne (by decide)]
    have h2 : replaceEscN ('\\' :: 'n' :: replaceEscQuote b) =
        '\n' :: replaceEscN (replaceEscQuote b) := by
      simp [replaceEscN]
    rw [h1, h2, ih]

lemma contOk_ws {ws3 post : List Char} {c : Char} (hw : ∀ x ∈ ws3, isJsWs x)
    (hc : c = ',' ∨ c = '}') : contOk (ws3 ++ c :: post) = true := by
  unfold contOk
  rcases hc with h | h <;> subst h <;>
    rw [List.dropWhile_append_of_pos hw, List.dropWhile_cons_of_neg (by decide)] <;> rfl

/-- The lazy capture group stops exactly at the object's closing quote when
no quote inside the body admits a valid continuation. -/
lemma lazyGroup_exact {body rest : List Char}
    (hq : ∀ u v, body = u ++ '"' :: v → contOk (v ++ '"' :: rest) = false)
    (hrest : contOk rest = true) :
    lazyGroup (body ++ '"' :: rest) = some body := by
  induction body with
  | nil => simp [lazyGroup, hrest]
  | cons b bs ih =>
    have hrec := ih (fun u v h => hq (b :: u) v (by rw [h, List.cons_append]))
    by_cases hb : b = '"'
    · subst hb
      have h0 := hq [] bs rfl
      rw [List.cons_append]
      unfold lazyGroup
      rw [if_neg (by simp [h0]), hrec]
      rfl
    · rw [List.cons_append]
      unfold lazyGroup
      rw [if_neg (by simp [hb]), hrec]
      rfl

lemma tryAt_none {key cs : List Char} (h : ¬ fieldPat key <+: cs) :
    tryAt key cs = none := by
  unfold tryAt
  rw [if_neg (by simpa [List.isPrefixOf_iff_prefix] using h)]

/-- Positions strictly inside the leading noise never match, so the
leftmost-match search walks past the noise. -/
lemma pickMatch_append {key : List Char} :
    ∀ (pre s : List Char),
      (∀ i, i < pre.length → ¬ fieldPat key <+: ((pre ++ s).drop i)) →
      pickMatch key (pre ++ s) = pickMatch key s := by
  intro pre
  induction pre with
  | nil => intro s _; rfl
  | cons p pr ih =>
    intro s h
    have h0 : ¬ fieldPat key <+: (p :: (pr ++ s)) := by
      have h1 := h 0 (by simp)
      simpa using h1
    have h2 : ∀ i, i < pr.length → ¬ fieldPat key <+: ((pr ++ s).drop i) := by
      intro i hi
      have h3 := h (i + 1) (by simp only [List.length_cons]; omega)
      rw [List.cons_append, List.drop_succ_cons] at h3
      exact h3
    have hstep : pickMatch key (p :: (pr ++ s)) = pickMatch key (pr ++ s) := by
      conv_lhs => unfold pickMatch
      rw [tryAt_none h0]
    rw [List.cons_append, hstep]
    exact ih s h2

lemma pickMatch_cons_of_tryAt {key : List Char} {c : Char} {rest g : List Char}
    (h : tryAt key (c :: rest) = some g) : pickMatch key (c :: rest) = some g := by
  unfold pickMatch
  rw [h]

/-- At the member's own position the matcher succeeds and captures the raw
body of the string value. -/
lemma tryAt_member (key : List Char) {ws1 ws2 body ws3 post : List Char} {c : Char}
    (hw1 : ∀ x ∈ ws1, isJsWs x) (hw2 : ∀ x ∈ ws2, isJsWs x) (hw3 : ∀ x ∈ ws3, isJsWs x)
    (hc : c = ',' ∨ c = '}')
    (hq : ∀ u v, body = u ++ '"' :: v → contOk (v ++ '"' :: (ws3 ++ c :: post)) = false) :
    tryAt key (fieldPat key ++
      (ws1 ++ ':' :: (ws2 ++ '"' :: (body ++ '"' :: (ws3 ++ c :: post))))) = some body := by
  unfold tryAt
  rw [if_pos (List.isPrefixOf_iff_prefix.mpr (List.prefix_append _ _))]
  rw [List.drop_left]
  have e1 : List.dropWhile isJsWs
      (ws1 ++ ':' :: (ws2 ++ '"' :: (body ++ '"' :: (ws3 ++ c :: post)))) =
      ':' :: (ws2 ++ '"' :: (body ++ '"' :: (ws3 ++ c :: post))) := by
    rw [List.dropWhile_append_of_pos hw1, List.dropWhile_cons_of_neg (by decide)]
  rw [e1]
  show (if ':' = ':' then
      (match List.dropWhile isJsWs (ws2 ++ '"' :: (body ++ '"' :: (ws3 ++ c :: post))) with
        | c2 :: r3 => if c2 = '"' then lazyGroup r3 else none
        | [] => none)
    else none) = some body
  rw [if_pos rfl]
  have e2 : List.dropWhile isJsWs (ws2 ++ '"' :: (body ++ '"' :: (ws3 ++ c :: post))) =
      '"' :: (body ++ '"' :: (ws3 ++ c :: post)) := by
    rw [List.dropWhile_append_of_pos hw2, List.dropWhile_cons_of_neg (by decide)]
  rw [e2]
  show (if ('"' : Char) = '"' then lazyGroup (body ++ '"' :: (ws3 ++ c :: post)) else none) =
      some body
  rw [if_pos rfl]
  exact lazyGroup_exact hq (contOk_ws hw3 hc)

/-- A malformed document shape: some noise, then a well-formed string member
for `key`, then the remainder. -/
def fieldMemberDoc (key pre ws1 ws2 body ws3 post : List Char) (c : Char) : List Char :=
  pre ++ fieldPat key ++ ws1 ++ ':' :: ws2 ++ '"' :: body ++ '"' :: ws3 ++ c :: post

/-- C4 (amended): the field-level regex recovery `pick` extracts a
well-formed string member's value from an otherwise arbitrary document and
decodes escaped quotes and escaped newlines, for values built from plain
characters and those two escapes, provided no quote of the value is
followed (after optional whitespace) by a comma or a closing brace — the
counterexample shows the lazy regex stops early there — and the quoted
field name occurrence is the document's first. -/
theorem pick_extracts (key : String) (pre ws1 ws2 body d ws3 post : List Char) (c : Char)
    (hw1 : ∀ x ∈ ws1, isJsWs x) (hw2 : ∀ x ∈ ws2, isJsWs x) (hw3 : ∀ x ∈ ws3, isJsWs x)
    (hc : c = ',' ∨ c = '}')
    (hbody : ValidBody body d)
    (hq : ∀ u v, body = u ++ '"' :: v → contOk (v ++ '"' :: (ws3 ++ c :: post)) = false)
    (hfirst : ∀ a b, fieldMemberDoc key.data pre ws1 ws2 body ws3 post c =
        a ++ fieldPat key.data ++ b → pre.length ≤ a.length) :
    pick key (String.mk (fieldMemberDoc key.data pre ws1 ws2 body ws3 post c)) =
      String.mk d := by
  have hdoc : fieldMemberDoc key.data pre ws1 ws2 body ws3 post c =
      pre ++ (fieldPat key.data ++
        (ws1 ++ ':' :: (ws2 ++ '"' :: (body ++ '"' :: (ws3 ++ c :: post))))) := by
    simp [fieldMemberDoc]
  have hskip : ∀ i, i < pre.length →
      ¬ fieldPat key.data <+: ((pre ++ (fieldPat key.data ++
        (ws1 ++ ':' :: (ws2 ++ '"' :: (body ++ '"' :: (ws3 ++ c :: post)))))).drop i) := by
    intro i hi hpref
    obtain ⟨tail2, htail⟩ := hpref
    set D := pre ++ (fieldPat key.data ++
      (ws1 ++ ':' :: (ws2 ++ '"' :: (body ++ '"' :: (ws3 ++ c :: post))))) with hD
    have hsplit : D = D.take i ++ fieldPat key.data ++ tail2 := by
      rw [List.append_assoc, htail, List.take_append_drop]
    have hlen : pre.length ≤ (D.take i).length :=
      hfirst (D.take i) tail2 (hdoc.trans hsplit)
    have hiD : i ≤ D.length := by
      have : pre.length ≤ D.length := by
        rw [hD]; simp
      omega
    rw [List.length_take] at hlen
    omega
  have hm := tryAt_member key.data hw1 hw2 hw3 hc hq
  have hcons : fieldPat key.data ++
      (ws1 ++ ':' :: (ws2 ++ '"' :: (body ++ '"' :: (ws3 ++ c :: post)))) =
      '"' :: ((key.data ++ ['"']) ++
        (ws1 ++ ':' :: (ws2 ++ '"' :: (body ++ '"' :: (ws3 ++ c :: post))))) := by
    simp [fieldPat]
  have hfull : pickMatch key.data (fieldMemberDoc key.data pre ws1 ws2 body ws3 post c) =
      some body := by
    rw [hdoc, pickMatch_append pre _ hskip, hcons]
    exact pickMatch_cons_of_tryAt (by rw [← hcons]; exact hm)
  show (match pickMatch key.data (fieldMemberDoc key.data pre ws1 ws2 body ws3 post c) with
    | some g => String.mk (decodeEscapes g)
    | none => "") = String.mk d
  rw [hfull]
  show String.mk (decodeEscapes body) = String.mk d
  rw [decodeEscapes_validBody hbody]

/-! ### Transcription Client (`stt.ts`) -/

/-- One recognition alternative of the recognizer response. -/
structure SttAlternative where
  transcript : Option String
deriving DecidableEq, Repr

/-- One recognition result (  `alternatives` may be absent). -/
structure SttResult where
  alternatives : Option (List SttAlternative)
deriving DecidableEq, Repr

/-- The recognizer response (`results` may be absent). -/
structure SttResponse where
  results : Option (List SttResult)
deriving DecidableEq, Repr

/-- JS `trim` on strings. -/
def jsTrimString (s : String) : String := String.mk (jsTrim s.data)

/-- The per-result mapper of `speechToText`:
`r.alternatives?.[0]?.transcript ?? ""`. -/
def topTranscript (r : SttResult) : String :=
  match r.alternatives with
  | some (a :: _) => a.transcript.getD ""
  | _ => ""

/-- `speechToText` response assembly from `stt.ts`:
`(resp.results ?? []).map(top).join(" ").trim()`. -/
def speechToText (resp : SttResponse) : String :=
  jsTrimString (String.intercalate " " ((resp.results.getD []).map topTranscript))

/-! ### History store and turn orchestration (`index.ts`) -/

/-- Role of a history entry (`HistMsg.role`). -/
inductive Role
  | user
  | assistant
deriving DecidableEq, Repr

/-- `HistMsg` from `index.ts`. -/
structure HistMsg where
  role : Role
  text : String
deriving DecidableEq, Repr

/-- The in-memory history store, observed through
`historyStore.get(k) ?? []`: a total map from conversation id to entries. -/
def Store := String → List HistMsg

/-- The store at process start (`new Map()`): every id reads back empty. -/
def emptyStore : Store := fun _ => []

/-- `historyStore.set(k, v)`. -/
def storeSet (s : Store) (k : String) (v : List HistMsg) : Store :=
  fun k' => if k' = k then v else s k'

/-- `historyStore.delete(k)`: a later `get(k) ?? []` reads `[]`. -/
def storeDelete (s : Store) (k : String) : Store :=
  fun k' => if k' = k then [] else s k'

/-- The bounded history window read for prompting: `hist.slice(-6)`.
JS `slice(-6)` takes the elements from index `max(len - 6, 0)` on. -/
def historyWindow (hist : List HistMsg) : List HistMsg :=
  hist.drop (hist.length - 6)

/-- External calls a turn can make, with the arguments relevant to the
claims. -/
inductive ExtCall
  | decode (bytes : List Nat) (mime : String)
  | stt (bytes : List Nat) (lang : String)
  | translate (text target : String)
  | tutor (window : List HistMsg)
  | tts (text : String)
deriving DecidableEq, Repr

/-- Result of an HTTP route: success payload, client error (HTTP 400) or
server error (HTTP 500, via the global error handler). -/
inductive TurnResult (ρ : Type)
  | ok (resp : ρ)
  | clientError (msg : String)
  | serverError (msg : String)
deriving DecidableEq, Repr

/-- JSON body of `/turn_text` before validation; absent fields are `none`. -/
structure TurnTextBody where
  conversation_id : Option String
  target_language : Option String
  native_language : Option String
  persona : Option String
  user_text : Option String
deriving DecidableEq, Repr

/-- The request after zod validation and defaulting. -/
structure TurnTextReq where
  conversation_id : String
  target_language : String
  native_language : String
  persona : String
  user_text : String
deriving DecidableEq, Repr

/-- The zod schema of `/turn_text`: all fields defaulted except
`user_text`, which is required and must be non-empty (`min(1)`). -/
def parseTurnText (b : TurnTextBody) : Option TurnTextReq :=
  match b.user_text with
  | none => none
  | some t =>
    if t.length ≥ 1 then
      some { conversation_id := b.conversation_id.getD "demo"
             target_language := b.target_language.getD "ja"
             native_language := b.native_language.getD "zh-TW"
             persona := b.persona.getD "Osaka izakaya owner"
             user_text := t }
    else none

/-- Response payload of `/turn_text` (the audio bytes are kept raw here;
the route base64-encodes them, which no claim concerns). -/
structure TurnTextResponse where
  conversation_id : String
  corrected_user : String
  tips_native : String
  assistant_reply : String
  follow_up_question : String
  assistant_audio : List Nat
deriving DecidableEq, Repr

/-- The `/turn_text` route: validate, read the history window, call the
tutor, append the user/assistant pair, call the synthesizer, respond.
Remote outcomes are supplied as oracles; the call log records invocations. -/
def turnText (store : Store) (b : TurnTextBody)
    (tutorFn : List HistMsg → Except String TutorOut)
    (ttsFn : String → Except String (List Nat)) :
    Store × TurnResult TurnTextResponse × List ExtCall :=
  match parseTurnText b with
  | none => (store, TurnResult.clientError "validation", [])
  | some req =>
    let hist := store req.conversation_id
    match tutorFn (historyWindow hist) with
    | Except.error e =>
      (store, TurnResult.serverError e, [ExtCall.tutor (historyWindow hist)])
    | Except.ok tutor =>
      let hist' := hist ++ [⟨Role.user, req.user_text⟩, ⟨Role.assistant, tutor.assistant_reply⟩]
      let store' := storeSet store req.conversation_id hist'
      match ttsFn tutor.assistant_reply with
      | Except.error e =>
        (store', TurnResult.serverError e,
          [ExtCall.tutor (historyWindow hist), ExtCall.tts tutor.assistant_reply])
      | Except.ok audio =>
        (store',
          TurnResult.ok
            { conversation_id := req.conversation_id
              corrected_user := tutor.corrected_user
              tips_native := tutor.tips_native
              assistant_reply := tutor.assistant_reply
              follow_up_question := tutor.follow_up_question.getD ""
              assistant_audio := audio },
          [ExtCall.tutor (historyWindow hist), ExtCall.tts tutor.assistant_reply])

/-- Multipart body of `/turn`; `audio = none` models a missing or non-file
`audio` field, `some bytes` a present upload. String fields are absent or
strings (so the zod parse of this model always succeeds). -/
structure TurnAudioBody where
  audio : Option (List Nat)
  audioMime : String
  conversation_id : Option String
  stt_language : Option String
  target_language : Option String
  native_language : Option String
  persona : Option String
  subtitle_target : Option String
deriving DecidableEq, Repr

/-- Response payload of `/turn`. -/
structure TurnAudioResponse where
  conversation_id : String
  user_text : String
  subtitle_native : String
  corrected_user : String
  tips_native : String
  assistant_reply : String
  follow_up_question : String
  assistant_audio : List Nat
deriving DecidableEq, Repr

/-- Truthiness of the optional `subtitle_target` field:
`undefined` and the empty string are falsy. -/
def subtitleRequested (stOpt : Option String) : Bool :=
  match stOpt with
  | some s => !(s = "")
  | none => false

/-- The subtitle computation of `/turn`:
`subtitle_target ? await translateText(user_text, subtitle_target) : ""`. -/
def subtitleResult (user_text : String) (stOpt : Option String)
    (trFn : String → String → Except String String) : Except String String :=
  match stOpt with
  | some s => if s = "" then Except.ok "" else trFn user_text s
  | none => Except.ok ""

/-- The translation calls the subtitle step performs. -/
def subtitleCalls (user_text : String) (stOpt : Option String) : List ExtCall :=
  match stOpt with
  | some s => if s = "" then [] else [ExtCall.translate user_text s]
  | none => []

/-- The `/turn` route: audio-field check, empty-upload guard, decode to
WAV, empty-output guard, transcription, optional translation (only when
`subtitle_target` is truthy, i.e. present and non-empty), tutor, history
append, synthesis. -/
def turnAudio (store : Store) (b : TurnAudioBody)
    (decodeFn : List Nat → String → Except String (List Nat))
    (sttFn : List Nat → String → Except String String)
    (trFn : String → String → Except String String)
    (tutorFn : List HistMsg → Except String TutorOut)
    (ttsFn : String → Except String (List Nat)) :
    Store × TurnResult TurnAudioResponse × List ExtCall :=
  match b.audio with
  | none => (store, TurnResult.clientError "Missing audio file field: audio", [])
  | some raw =>
    let cid := b.conversation_id.getD "demo"
    let sttLang := b.stt_language.getD "ja-JP"
    if raw.length = 0 then
      (store, TurnResult.clientError "Empty audio upload (0 bytes)", [])
    else
      match decodeFn raw b.audioMime with
      | Except.error e =>
        (store, TurnResult.serverError e, [ExtCall.decode raw b.audioMime])
      | Except.ok wav =>
        if wav.length = 0 then
          (store, TurnResult.serverError "Audio conversion produced empty output",
            [ExtCall.decode raw b.audioMime])
        else
          match sttFn wav sttLang with
          | Except.error e =>
            (store, TurnResult.serverError e,
              [ExtCall.decode raw b.audioMime, ExtCall.stt wav sttLang])
          | Except.ok user_text =>
            let calls1 := [ExtCall.decode raw b.audioMime, ExtCall.stt wav sttLang] ++
              subtitleCalls user_text b.subtitle_target
            match subtitleResult user_text b.subtitle_target trFn with
            | Except.error e => (store, TurnResult.serverError e, calls1)
            | Except.ok subtitle_native =>
              let hist := store cid
              match tutorFn (historyWindow hist) with
              | Except.error e =>
                (store, TurnResult.serverError e,
                  calls1 ++ [ExtCall.tutor (historyWindow hist)])
              | Except.ok tutor =>
                let hist' := hist ++
                  [⟨Role.user, user_text⟩, ⟨Role.assistant, tutor.assistant_reply⟩]
                let store' := storeSet store cid hist'
                match ttsFn tutor.assistant_reply with
                | Except.error e =>
                  (store', TurnResult.serverError e,
                    calls1 ++ [ExtCall.tutor (historyWindow hist),
                      ExtCall.tts tutor.assistant_reply])
                | Except.ok audio =>
                  (store',
                    TurnResult.ok
                      { conversation_id := cid
                        user_text := user_text
                        subtitle_native := subtitle_native
                        corrected_user := tutor.corrected_user
                        tips_native := tutor.tips_native
                        assistant_reply := tutor.assistant_reply
                        follow_up_question := tutor.follow_up_question.getD ""
                        assistant_audio := audio },
                    calls1 ++ [ExtCall.tutor (historyWindow hist),
                      ExtCall.tts tutor.assistant_reply])

/-- JSON body of `/clear`: `none` models a missing or unparseable body
(the route recovers it to an empty object via `.catch(() => ({}))`). -/
structure ClearBody where
  conversation_id : Option String
deriving DecidableEq, Repr

/-- The `/clear` route: default the body, default the conversation id to
`demo`, delete the conversation, answer ok. -/
def clearRoute (store : Store) (body : Option ClearBody) : Store × TurnResult Bool :=
  let obj : ClearBody := body.getD ⟨none⟩
  let cid := obj.conversation_id.getD "demo"
  (storeDelete store cid, TurnResult.ok true)

/-! ### Branch analysis of the turn routes -/

/-- A text turn leaves the store unchanged or appends one user/assistant
pair to one conversation. -/
lemma turnText_store_cases (store : Store) (b : TurnTextBody)
    (f : List HistMsg → Except String TutorOut) (g : String → Except String (List Nat)) :
    (turnText store b f g).1 = store ∨
    ∃ cid u a, (turnText store b f g).1 =
      storeSet store cid (store cid ++ [⟨Role.user, u⟩, ⟨Role.assistant, a⟩]) := by
  unfold turnText
  dsimp only
  repeat' split
  all_goals first
    | exact Or.inl rfl
    | exact Or.inr ⟨_, _, _, rfl⟩

/-- An audio turn leaves the store unchanged or appends one user/assistant
pair to one conversation. -/
lemma turnAudio_store_cases (store : Store) (b : TurnAudioBody)
    (d : List Nat → String → Except String (List Nat))
    (st : List Nat → String → Except String String)
    (tr : String → String → Except String String)
    (f : List HistMsg → Except String TutorOut) (g : String → Except String (List Nat)) :
    (turnAudio store b d st tr f g).1 = store ∨
    ∃ cid u a, (turnAudio store b d st tr f g).1 =
      storeSet store cid (store cid ++ [⟨Role.user, u⟩, ⟨Role.assistant, a⟩]) := by
  unfold turnAudio
  dsimp only
  repeat' split
  all_goals first
    | exact Or.inl rfl
    | exact Or.inr ⟨_, _, _, rfl⟩

/-- The only tutor window an audio turn sends is the most-recent slice of
the stored history of the resolved conversation id. -/
lemma turnAudio_tutor_window (store : Store) (b : TurnAudioBody)
    (d : List Nat → String → Except String (List Nat))
    (st : List Nat → String → Except String String)
    (tr : String → String → Except String String)
    (f : List HistMsg → Except String TutorOut) (g : String → Except String (List Nat)) :
    ∀ w, ExtCall.tutor w ∈ (turnAudio store b d st tr f g).2.2 →
      w = historyWindow (store (b.conversation_id.getD "demo")) := by
  unfold turnAudio
  dsimp only
  repeat' split
  all_goals intro w hw
  all_goals
    simp only [subtitleCalls, List.mem_append, List.mem_cons, List.mem_singleton,
      List.not_mem_nil, or_false, false_or] at hw
  all_goals (try (rcases b.subtitle_target with _ | s))
  all_goals (try split at hw)
  all_goals simp_all

/-- Same for text turns, where the id comes from the parsed request. -/
lemma turnText_tutor_window (store : Store) (b : TurnTextBody)
    (f : List HistMsg → Except String TutorOut) (g : String → Except String (List Nat)) :
    ∀ w, ExtCall.tutor w ∈ (turnText store b f g).2.2 →
      ∃ req, parseTurnText b = some req ∧ w = historyWindow (store req.conversation_id) := by
  unfold turnText
  dsimp only
  repeat' split
  all_goals intro w hw
  all_goals simp_all

/-! ### History shape invariant -/

/-- Histories made of user/assistant pairs in order. -/
inductive GoodHist : List HistMsg → Prop
  | nil : GoodHist []
  | pair (tu ta : String) {rest : List HistMsg} :
      GoodHist rest → GoodHist (⟨Role.user, tu⟩ :: ⟨Role.assistant, ta⟩ :: rest)

lemma GoodHist.append_pair {l : List HistMsg} (h : GoodHist l) (tu ta : String) :
    GoodHist (l ++ [⟨Role.user, tu⟩, ⟨Role.assistant, ta⟩]) := by
  induction h with
  | nil => exact GoodHist.pair tu ta GoodHist.nil
  | pair a b _ ih =>
    rw [List.cons_append, List.cons_append]
    exact GoodHist.pair a b ih

lemma GoodHist.even_length {l : List HistMsg} (h : GoodHist l) : l.length % 2 = 0 := by
  induction h with
  | nil => rfl
  | pair a b _ ih =>
    simp only [List.length_cons]
    omega

lemma GoodHist.role_alternates {l : List HistMsg} (h : GoodHist l) :
    ∀ i (hi : i < l.length),
      (l.get ⟨i, hi⟩).role = if i % 2 = 0 then Role.user else Role.assistant := by
  induction h with
  | nil => intro i hi; exact absurd hi (by simp)
  | pair a b hrest ih =>
    intro i hi
    match i with
    | 0 => rfl
    | 1 => rfl
    | n + 2 =>
      simp only [List.length_cons] at hi
      have hrec := ih n (by omega)
      simpa [List.get, Nat.add_mod_right] using hrec

/-- Stores reachable from process start through the three mutating routes. -/
inductive Reach : Store → Prop
  | init : Reach emptyStore
  | stepText (s : Store) (b : TurnTextBody) (f : List HistMsg → Except String TutorOut)
      (g : String → Except String (List Nat)) :
      Reach s → Reach (turnText s b f g).1
  | stepAudio (s : Store) (b : TurnAudioBody)
      (d : List Nat → String → Except String (List Nat))
      (st : List Nat → String → Except String String)
      (tr : String → String → Except String String)
      (f : List HistMsg → Except String TutorOut)
      (g : String → Except String (List Nat)) :
      Reach s → Reach (turnAudio s b d st tr f g).1
  | stepClear (s : Store) (body : Option ClearBody) :
      Reach s → Reach (clearRoute s body).1

lemma goodHist_of_cases {s : Store} (ih : ∀ cid, GoodHist (s cid))
    {s' : Store}
    (h : s' = s ∨ ∃ cid u a, s' = storeSet s cid (s cid ++ [⟨Role.user, u⟩, ⟨Role.assistant, a⟩])) :
    ∀ cid, GoodHist (s' cid) := by
  intro cid
  rcases h with rfl | ⟨cid', u, a, rfl⟩
  · exact ih cid
  · show GoodHist (if cid = cid' then _ else s cid)
    split
    · exact (ih cid').append_pair u a
    · exact ih cid

/-! ### Claim theorems -/

/-- C2 (counterexample): the input `x{y{}` contains exactly one balanced
top-level JSON object substring, namely `{}`, yet `extractFirstJSONObject`
does not return it: the scan starts at the first opening brace, which here
belongs to the preceding noise. -/
theorem extractFirstJSONObject_noise_brace_counterexample :
    Spec.IsBalancedJsonObject ['{', '}'] ∧
    Spec.countBalancedSubstrings ['x', '{', 'y', '{', '}'] = 1 ∧
    ['x', '{', 'y', '{', '}'] = ['x', '{', 'y'] ++ ['{', '}'] ++ ([] : List Char) ∧
    extractFirstJSONObject (String.mk ['x', '{', 'y', '{', '}']) ≠ String.mk ['{', '}'] :=
  ⟨by decide, by decide, by decide, by decide⟩

/-- C2 (amended): for every input of the form noise ++ balanced object ++
noise — nested objects and string-embedded braces/quotes allowed — the
extractor returns exactly the balanced object, provided the preceding noise
contains no opening brace (the extractor scans from the first `{` of the
preprocessed text, so a stray opening brace in the noise derails it, as the
counterexample shows; with that proviso the balanced substring is unique
automatically). -/
theorem extractFirstJSONObject_balanced_extraction (pre obj post : List Char)
    (hbal : Spec.IsBalancedJsonObject obj) (hpre : '{' ∉ pre) :
    extractFirstJSONObject (String.mk (pre ++ obj ++ post)) = String.mk obj := by
  show String.mk (extractFirstJSONObjectList (pre ++ obj ++ post)) = String.mk obj
  rw [extractFirstJSONObjectList_of_balanced pre obj post hbal hpre]

/-- C2 (witness): concrete run of the amended theorem on
`ab{"x":1}z` (noise, object with a string member, noise). -/
theorem extractFirstJSONObject_balanced_extraction_witness :
    extractFirstJSONObject
        (String.mk (['a', 'b'] ++ ['{', '"', 'x', '"', ':', '1', '}'] ++ ['z'])) =
      String.mk ['{', '"', 'x', '"', ':', '1', '}'] :=
  extractFirstJSONObject_balanced_extraction ['a', 'b'] ['{', '"', 'x', '"', ':', '1', '}']
    ['z'] (by decide) (by decide)

/-- C1 (counterexample): a text turn whose tutor call succeeds but whose
synthesis call fails is a failed turn (HTTP 500), yet the history of the
conversation has grown by two entries, because `index.ts` appends to the
history before invoking the synthesizer. -/
theorem turnText_failed_turn_counterexample :
    (turnText emptyStore ⟨none, none, none, none, some "hi"⟩
        (fun _ => Except.ok ⟨"Hi.", "tip", "Hello!", some "Q"⟩)
        (fun _ => Except.error "tts down")).2.1 = TurnResult.serverError "tts down" ∧
    ((turnText emptyStore ⟨none, none, none, none, some "hi"⟩
        (fun _ => Except.ok ⟨"Hi.", "tip", "Hello!", some "Q"⟩)
        (fun _ => Except.error "tts down")).1 "demo").length = 2 := by
  exact ⟨by decide, by decide⟩

/-- C1 (amended): a successful text turn appends exactly the user entry
(request text) followed by the assistant entry (tutor reply); a turn that
fails at validation or at the Tutor Client leaves the history unchanged;
but a turn that fails at the synthesis stage, after the Tutor Client
succeeded, has already appended the two entries (history is persisted
between the tutor call and the synthesizer call). -/
theorem turnText_history_effect (store : Store) (b : TurnTextBody)
    (f : List HistMsg → Except String TutorOut) (g : String → Except String (List Nat)) :
    (parseTurnText b = none →
      turnText store b f g = (store, TurnResult.clientError "validation", [])) ∧
    (∀ req e, parseTurnText b = some req →
      f (historyWindow (store req.conversation_id)) = Except.error e →
      (turnText store b f g).1 = store ∧
      (turnText store b f g).2.1 = TurnResult.serverError e) ∧
    (∀ req t, parseTurnText b = some req →
      f (historyWindow (store req.conversation_id)) = Except.ok t →
      (turnText store b f g).1 req.conversation_id =
        store req.conversation_id ++
          [⟨Role.user, req.user_text⟩, ⟨Role.assistant, t.assistant_reply⟩] ∧
      ((∃ resp, (turnText store b f g).2.1 = TurnResult.ok resp) ↔
        (∃ audio, g t.assistant_reply = Except.ok audio))) := by
  refine ⟨?_, ?_, ?_⟩
  · intro hp
    simp only [turnText, hp]
  · intro req e hp ht
    simp [turnText, hp, ht]
  · intro req t hp ht
    simp only [turnText, hp, ht]
    rcases hg : g t.assistant_reply with e | audio <;> simp only [hg]
    · refine ⟨?_, ?_⟩
      · show storeSet store req.conversation_id _ req.conversation_id = _
        unfold storeSet
        rw [if_pos rfl]
      · constructor
        · rintro ⟨resp, hresp⟩
          exact absurd hresp (by simp)
        · rintro ⟨audio, haud⟩
          exact absurd haud (by simp)
    · refine ⟨?_, ?_⟩
      · show storeSet store req.conversation_id _ req.conversation_id = _
        unfold storeSet
        rw [if_pos rfl]
      · exact ⟨fun _ => ⟨audio, rfl⟩, fun _ => ⟨_, rfl⟩⟩

/-- C1 (witness): concrete successful turn — the two entries appended are
the request text and the tutor reply. -/
theorem turnText_history_effect_witness :
    (turnText emptyStore ⟨none, none, none, none, some "hi"⟩
        (fun _ => Except.ok ⟨"Hi.", "tip", "Hello!", some "Q"⟩)
        (fun _ => Except.ok [1, 2])).1 "demo" =
      [⟨Role.user, "hi"⟩, ⟨Role.assistant, "Hello!"⟩] := by
  have h := ((turnText_history_effect emptyStore ⟨none, none, none, none, some "hi"⟩
      (fun _ => Except.ok ⟨"Hi.", "tip", "Hello!", some "Q"⟩)
      (fun _ => Except.ok [1, 2])).2.2
      ⟨"demo", "ja", "zh-TW", "Osaka izakaya owner", "hi"⟩
      ⟨"Hi.", "tip", "Hello!", some "Q"⟩ (by decide) rfl).1
  exact h.trans rfl

/-- C6: a `/turn` request whose audio field is present but holds zero bytes
is rejected with a client validation error before any external call, and
the history store is untouched. -/
theorem turnAudio_empty_upload (store : Store) (b : TurnAudioBody)
    (d : List Nat → String → Except String (List Nat))
    (st : List Nat → String → Except String String)
    (tr : String → String → Except String String)
    (f : List HistMsg → Except String TutorOut) (g : String → Except String (List Nat))
    (h : b.audio = some ([] : List Nat)) :
    turnAudio store b d st tr f g =
      (store, TurnResult.clientError "Empty audio upload (0 bytes)", ([] : List ExtCall)) := by
  unfold turnAudio
  rw [h]
  rfl

/-- C6 (witness). -/
theorem turnAudio_empty_upload_witness :
    turnAudio emptyStore ⟨some [], "audio/webm", none, none, none, none, none, none⟩
      (fun _ _ => Except.error "d") (fun _ _ => Except.error "s")
      (fun _ _ => Except.error "t") (fun _ => Except.error "tu")
      (fun _ => Except.error "ts") =
      (emptyStore, TurnResult.clientError "Empty audio upload (0 bytes)", []) :=
  turnAudio_empty_upload emptyStore _ _ _ _ _ _ rfl

/-- C10: a `/clear` request with a missing or unparseable JSON body is not
an error: the body defaults to the empty object, the conversation id to
`demo`, that conversation is deleted and `ok` is returned; other
conversations are untouched. -/
theorem clearRoute_defaults (store : Store) :
    clearRoute store none = (storeDelete store "demo", TurnResult.ok true) ∧
    (clearRoute store none).1 "demo" = [] ∧
    ∀ k, k ≠ "demo" → (clearRoute store none).1 k = store k := by
  refine ⟨rfl, ?_, ?_⟩
  · show storeDelete store "demo" "demo" = []
    unfold storeDelete
    rw [if_pos rfl]
  · intro k hk
    show storeDelete store "demo" k = store k
    unfold storeDelete
    rw [if_neg hk]

/-- C10 (witness): clearing with no body erases `demo` and leaves another
conversation intact. -/
theorem clearRoute_defaults_witness :
    (clearRoute (storeSet emptyStore "demo" [⟨Role.user, "a"⟩]) none).1 "demo" = [] ∧
    (clearRoute (storeSet emptyStore "other" [⟨Role.user, "a"⟩]) none).1 "other" =
      [⟨Role.user, "a"⟩] :=
  ⟨(clearRoute_defaults _).2.1,
    ((clearRoute_defaults _).2.2 "other" (by decide)).trans (by decide)⟩

/-- C3: the recovery stage raises an error — whose message carries the
truncated (800-character) raw-text snippet — exactly when all three primary
fields (`corrected_user`, `tips_native`, `assistant_reply`) recover empty;
with at least one recovered it returns the partial record whose unrecovered
fields are empty strings; the follow-up question never influences the
outcome. -/
theorem recoverFields_raises_iff_all_primary_empty (jsonStr raw emsg : String) :
    ((pick "corrected_user" jsonStr = "" ∧ pick "tips_native" jsonStr = "" ∧
      pick "assistant_reply" jsonStr = "") →
      recoverFields jsonStr raw emsg =
        Except.error ("JSON parse failed: " ++ emsg ++ ". Raw snippet: " ++
          String.mk ((if jsonStr = "" then raw else jsonStr).data.take 800))) ∧
    (¬ (pick "corrected_user" jsonStr = "" ∧ pick "tips_native" jsonStr = "" ∧
        pick "assistant_reply" jsonStr = "") →
      recoverFields jsonStr raw emsg =
        Except.ok { corrected_user := pick "corrected_user" jsonStr
                    tips_native := pick "tips_native" jsonStr
                    assistant_reply := pick "assistant_reply" jsonStr
                    follow_up_question := some (pick "follow_up_question" jsonStr) }) := by
  constructor
  · intro h
    unfold recoverFields
    dsimp only
    rw [if_pos h]
  · intro h
    unfold recoverFields
    dsimp only
    rw [if_neg h]

/-- C3 (witness): an empty candidate raises with the snippet built from the
raw text; a candidate holding only a well-formed `assistant_reply` member
succeeds partially. -/
theorem recoverFields_raises_iff_all_primary_empty_witness :
    recoverFields "" "raw" "msg" =
      Except.error ("JSON parse failed: " ++ "msg" ++ ". Raw snippet: " ++
        String.mk ((if ("" : String) = "" then "raw" else "").data.take 800)) ∧
    recoverFields
        (String.mk (fieldMemberDoc "assistant_reply".data [] [] [' '] ['o', 'k'] [] [] '}'))
        "raw" "msg" =
      Except.ok ⟨"", "", "ok", some ""⟩ :=
  ⟨(recoverFields_raises_iff_all_primary_empty "" "raw" "msg").1 ⟨rfl, rfl, rfl⟩,
    ((recoverFields_raises_iff_all_primary_empty
      (String.mk (fieldMemberDoc "assistant_reply".data [] [] [' '] ['o', 'k'] [] [] '}'))
      "raw" "msg").2 (by decide)).trans (congrArg Except.ok (by decide))⟩

/-- C4 (counterexample): the member `"corrected_user": "a\",b"` is
well-formed (its decoded value per the claim's own rules is `a",b`), yet
`pick` returns `a\` — the lazy regex stops at the escaped quote because it
is followed by a comma. -/
theorem pick_escaped_quote_comma_counterexample :
    ValidBody ['a', '\\', '"', ',', 'b'] ['a', '"', ',', 'b'] ∧
    pick "corrected_user"
      (String.mk (fieldMemberDoc "corrected_user".data [] [] [' ']
        ['a', '\\', '"', ',', 'b'] [] [] '}')) = "a\\" ∧
    ("a\\" : String) ≠ String.mk ['a', '"', ',', 'b'] := by
  refine ⟨?_, by decide, by decide⟩
  exact ValidBody.plain (by decide) (by decide)
    (ValidBody.escQuote (ValidBody.plain (by decide) (by decide)
      (ValidBody.plain (by decide) (by decide) ValidBody.nil)))

/-- C4 (witness): concrete extraction of a one-character value. -/
theorem pick_extracts_witness :
    pick "k" (String.mk (fieldMemberDoc "k".data [] [] [' '] ['v'] [] [] '}')) =
      String.mk ['v'] :=
  pick_extracts "k" [] [] [' '] ['v'] ['v'] [] [] '}'
    (by decide) (by decide) (by decide) (Or.inr rfl)
    (ValidBody.plain (by decide) (by decide) ValidBody.nil)
    (by
      intro u v hsplit
      have hmem : '"' ∈ (['v'] : List Char) := by
        rw [hsplit]
        simp
      exact absurd hmem (by decide))
    (by
      intro a b hsplit
      simp)

/-- C5: the history window read at the start of a turn is exactly the
min(n, 6) most recent stored entries, in stored order, for both the text
and the audio endpoint. -/
theorem historyWindow_spec :
    (∀ hist : List HistMsg, (historyWindow hist).length = min hist.length 6 ∧
      hist.take (hist.length - 6) ++ historyWindow hist = hist) ∧
    (∀ store b f g w, ExtCall.tutor w ∈ (turnText store b f g).2.2 →
      ∃ req, parseTurnText b = some req ∧ w = historyWindow (store req.conversation_id)) ∧
    (∀ store b d st tr f g w, ExtCall.tutor w ∈ (turnAudio store b d st tr f g).2.2 →
      w = historyWindow (store (b.conversation_id.getD "demo"))) := by
  refine ⟨?_, ?_, ?_⟩
  · intro hist
    constructor
    · unfold historyWindow
      rw [List.length_drop]
      omega
    · exact List.take_append_drop _ _
  · intro store b f g w hw
    exact turnText_tutor_window store b f g w hw
  · intro store b d st tr f g w hw
    exact turnAudio_tutor_window store b d st tr f g w hw

/-- C5 (witness): with eight stored entries the window sent to the tutor is
the six most recent. -/
theorem historyWindow_spec_witness :
    ∃ req, parseTurnText ⟨none, none, none, none, some "hi"⟩ = some req ∧
      List.replicate 6 (⟨Role.user, "x"⟩ : HistMsg) =
        historyWindow ((storeSet emptyStore "demo"
          (List.replicate 8 ⟨Role.user, "x"⟩)) req.conversation_id) :=
  historyWindow_spec.2.1 (storeSet emptyStore "demo" (List.replicate 8 ⟨Role.user, "x"⟩))
    ⟨none, none, none, none, some "hi"⟩
    (fun _ => Except.ok ⟨"", "", "r", none⟩) (fun _ => Except.ok [])
    (List.replicate 6 ⟨Role.user, "x"⟩) (by decide)

lemma subtitleCalls_empty {stOpt : Option String} (h : stOpt = none ∨ stOpt = some "") :
    ∀ u, subtitleCalls u stOpt = [] := by
  rcases h with rfl | rfl <;> intro u <;> simp [subtitleCalls]

lemma subtitleResult_empty {stOpt : Option String} (h : stOpt = none ∨ stOpt = some "") :
    ∀ u trFn, subtitleResult u stOpt trFn = Except.ok "" := by
  rcases h with rfl | rfl <;> intro u trFn <;> simp [subtitleResult]

/-- C7: when no subtitle target is supplied (absent or empty) the
translator is never invoked and a successful response carries an empty
`subtitle_native`; conversely a translation call implies an explicitly
requested non-empty target. -/
theorem turnAudio_subtitle_spec (store : Store) (b : TurnAudioBody)
    (d : List Nat → String → Except String (List Nat))
    (st : List Nat → String → Except String String)
    (tr : String → String → Except String String)
    (f : List HistMsg → Except String TutorOut) (g : String → Except String (List Nat)) :
    ((b.subtitle_target = none ∨ b.subtitle_target = some "") →
      (∀ t tg, ExtCall.translate t tg ∉ (turnAudio store b d st tr f g).2.2) ∧
      (∀ resp, (turnAudio store b d st tr f g).2.1 = TurnResult.ok resp →
        resp.subtitle_native = "")) ∧
    (∀ t tg, ExtCall.translate t tg ∈ (turnAudio store b d st tr f g).2.2 →
      ∃ s, b.subtitle_target = some s ∧ s ≠ "") := by
  constructor
  · intro hsub
    constructor
    · intro t tg hmem
      revert hmem
      unfold turnAudio
      dsimp only
      repeat' split
      all_goals intro hmem
      all_goals simp_all [subtitleCalls_empty hsub]
    · intro resp hresp
      revert hresp
      unfold turnAudio
      dsimp only
      repeat' split
      all_goals intro hresp
      all_goals simp_all [subtitleResult_empty hsub]
      all_goals (subst hresp; rfl)
  · rcases hst : b.subtitle_target with _ | s
    · intro t tg hmem
      revert hmem
      unfold turnAudio
      dsimp only
      repeat' split
      all_goals intro hmem
      all_goals simp_all [subtitleCalls, hst]
    · by_cases hse : s = ""
      · subst hse
        intro t tg hmem
        revert hmem
        unfold turnAudio
        dsimp only
        repeat' split
        all_goals intro hmem
        all_goals simp_all [subtitleCalls, hst]
      · intro t tg hmem
        exact ⟨s, rfl, hse⟩

/-- C7 (witness): a request without a subtitle target makes no translate
call and answers with an empty subtitle. -/
theorem turnAudio_subtitle_spec_witness :
    (ExtCall.translate "hi" "en" ∉
      (turnAudio emptyStore ⟨some [7], "audio/webm", none, none, none, none, none, none⟩
        (fun _ _ => Except.ok [1]) (fun _ _ => Except.ok "hi")
        (fun _ _ => Except.ok "sub") (fun _ => Except.ok ⟨"", "", "r", none⟩)
        (fun _ => Except.ok [2])).2.2) ∧
    ∀ resp,
      (turnAudio emptyStore ⟨some [7], "audio/webm", none, none, none, none, none, none⟩
        (fun _ _ => Except.ok [1]) (fun _ _ => Except.ok "hi")
        (fun _ _ => Except.ok "sub") (fun _ => Except.ok ⟨"", "", "r", none⟩)
        (fun _ => Except.ok [2])).2.1 = TurnResult.ok resp →
      resp.subtitle_native = "" :=
  ⟨((turnAudio_subtitle_spec emptyStore
      ⟨some [7], "audio/webm", none, none, none, none, none, none⟩
      (fun _ _ => Except.ok [1]) (fun _ _ => Except.ok "hi")
      (fun _ _ => Except.ok "sub") (fun _ => Except.ok ⟨"", "", "r", none⟩)
      (fun _ => Except.ok [2])).1 (Or.inl rfl)).1 "hi" "en",
    ((turnAudio_subtitle_spec emptyStore
      ⟨some [7], "audio/webm", none, none, none, none, none, none⟩
      (fun _ _ => Except.ok [1]) (fun _ _ => Except.ok "hi")
      (fun _ _ => Except.ok "sub") (fun _ => Except.ok ⟨"", "", "r", none⟩)
      (fun _ => Except.ok [2])).1 (Or.inl rfl)).2⟩

lemma topTranscript_eq (r : SttResult) :
    topTranscript r =
      ((r.alternatives.getD []).head?.map (fun a => a.transcript.getD "")).getD "" := by
  rcases r with ⟨alts⟩
  rcases alts with _ | l
  · rfl
  · rcases l with _ | ⟨a, as⟩ <;> rfl

/-- C8: `speechToText` returns the space-joined top transcripts of the
returned results, trimmed; absent or empty result lists yield the empty
string as an ordinary (non-error) value. -/
theorem speechToText_spec :
    (∀ rs : List SttResult,
      speechToText ⟨some rs⟩ =
        jsTrimString (String.intercalate " "
          (rs.map (fun r =>
            ((r.alternatives.getD []).head?.map (fun a => a.transcript.getD "")).getD "")))) ∧
    speechToText ⟨none⟩ = "" ∧ speechToText ⟨some []⟩ = "" := by
  refine ⟨?_, rfl, rfl⟩
  intro rs
  unfold speechToText
  have hfn : topTranscript =
      fun r : SttResult =>
        ((r.alternatives.getD []).head?.map (fun a => a.transcript.getD "")).getD "" :=
    funext topTranscript_eq
  rw [← hfn]
  rfl

/-- C9: every store reachable through the three mutating routes holds, for
every conversation id, a history of strictly alternating user/assistant
pairs: even length, user at even indices, assistant at odd indices. -/
theorem reachable_history_invariant (s : Store) (h : Reach s) :
    ∀ cid, GoodHist (s cid) ∧ (s cid).length % 2 = 0 ∧
      ∀ i (hi : i < (s cid).length),
        ((s cid).get ⟨i, hi⟩).role = if i % 2 = 0 then Role.user else Role.assistant := by
  have main : ∀ cid, GoodHist (s cid) := by
    induction h with
    | init => intro cid; exact GoodHist.nil
    | stepText s' b f g _ ih => exact goodHist_of_cases ih (turnText_store_cases s' b f g)
    | stepAudio s' b d st tr f g _ ih =>
      exact goodHist_of_cases ih (turnAudio_store_cases s' b d st tr f g)
    | stepClear s' body _ ih =>
      intro cid
      show GoodHist (storeDelete s' ((body.getD ⟨none⟩).conversation_id.getD "demo") cid)
      unfold storeDelete
      split
      · exact GoodHist.nil
      · exact ih cid
  intro cid
  exact ⟨main cid, (main cid).even_length, (main cid).role_alternates⟩

/-- C9 (witness): the store after one successful text turn from the empty
store satisfies the invariant at `demo`. -/
theorem reachable_history_invariant_witness :
    GoodHist ((turnText emptyStore ⟨none, none, none, none, some "hi"⟩
      (fun _ => Except.ok ⟨"", "", "ok", none⟩) (fun _ => Except.ok [])).1 "demo") :=
  ((reachable_history_invariant _
    (Reach.stepText emptyStore ⟨none, none, none, none, some "hi"⟩
      (fun _ => Except.ok ⟨"", "", "ok", none⟩) (fun _ => Except.ok []) Reach.init)) "demo").1

end LangMirror
